import Mathlib

/-!
# Verification of the article-pipeline orchestration and result-extraction layer

A shallow embedding of the pipeline orchestration code of
`sistema_multiagente_v2`:

* `app/crew/article_crew.py` — `ArticleCrew.run`, `ArticleCrew._parse_json_result`
  (the extraction cascade) and `ArticleCrew._convert_to_pydantic_model`;
* `app/models/article.py` — the pydantic models `ArticleSection`,
  `ArticleMetadata` and `Article` with their validators.

JSON values are modelled by `JVal`.  `pyLoads` models Python's `json.loads`
on the fragment the pipeline exchanges: objects, arrays, strings with the
standard short escapes (`\" \\ \/ \b \f \n \r \t`), integers, booleans and
`null`, with whitespace between tokens.  (`\uXXXX` escapes and float
literals are outside the modelled fragment; no input in this development
uses them.)  `serV` is the exact JSON encoding (`toJsonText` of the
specification), emitted compactly.  Timestamps (`datetime.now()`) are
abstracted as integers supplied as a `now` parameter.

The phase of `run` before line 144 of `article_crew.py` (task construction,
`crew.kickoff()`, unwrapping of the crew result) sits *outside* the
`try`/`except` block; it is embedded as an `Except String CrewOutcome`
input whose `.error` case models an exception raised there, which `run`
propagates to its caller unchanged.
-/

namespace ArticlePipeline

/-- A JSON value, as produced by `json.loads` on the modelled fragment.
Objects are association lists in textual order (`json.loads` keeps the last
binding of a duplicated key; lookups below do the same). -/
inductive JVal where
  | null
  | bool (b : Bool)
  | int (n : Int)
  | str (s : String)
  | arr (elems : List JVal)
  | obj (mems : List (String × JVal))

/-- A decoded JSON mapping: what `_parse_json_result` returns. -/
abbrev JObj := List (String × JVal)

/-! ## Characters, digits, Python whitespace -/

/-- Whitespace accepted between JSON tokens by `json.loads`. -/
def isJWs (c : Char) : Bool := c = ' ' || c = '\t' || c = '\n' || c = '\r'

/-- Whitespace stripped by Python's `str.strip()`. -/
def isPyWs (c : Char) : Bool :=
  c = ' ' || c = '\t' || c = '\n' || c = '\r' || c = '\x0b' || c = '\x0c'

def skipJWs (cs : List Char) : List Char := cs.dropWhile isJWs

/-- `str.strip()`: drop Python whitespace from both ends. -/
def pyStrip (cs : List Char) : List Char :=
  ((cs.dropWhile isPyWs).reverse.dropWhile isPyWs).reverse

def isDigitCh (c : Char) : Bool := 48 ≤ c.toNat && c.toNat ≤ 57

/-- The input does not continue with a digit (so an integer token just
scanned cannot be extended). -/
def noDigit : List Char → Bool
  | [] => true
  | c :: _ => !isDigitCh c

/-- The decimal digit character of `k` (`k < 10`). -/
def digitCh (k : Nat) : Char := Char.ofNat (48 + k)

/-- Fuel-driven digit emitter (structural, so the kernel can run it). -/
def natDigitsGo : Nat → Nat → List Char → List Char
  | 0, _, acc => acc
  | fuel + 1, n, acc =>
      if n < 10 then digitCh n :: acc
      else natDigitsGo fuel (n / 10) (digitCh (n % 10) :: acc)

/-- Decimal digits of `n`, most significant first, in front of `acc`. -/
def natDigits (n : Nat) (acc : List Char) : List Char := natDigitsGo (n + 1) n acc

/-- The character rendering of an integer: optional sign, then digits. -/
def intChs (i : Int) : List Char :=
  (if i < 0 then ['-'] else []) ++ natDigits i.natAbs []

/-- Numeric value of a digit run (accumulator style, as the scanner reads). -/
def digitsVal (ds : List Char) : Nat :=
  ds.foldl (fun a c => a * 10 + (c.toNat - 48)) 0

/-- Longest digit run at the front of the input, plus the remainder. -/
def grabDigits : List Char → List Char × List Char
  | [] => ([], [])
  | c :: cs =>
      if isDigitCh c then
        let (ds, r) := grabDigits cs
        (c :: ds, r)
      else ([], c :: cs)

/-! ## Serialization (`toJsonText`): compact exact JSON encoding -/

/-- JSON escape of one character (short escapes only, no `\uXXXX`). -/
def escCh (c : Char) : List Char :=
  if c = '"' then ['\\', '"']
  else if c = '\\' then ['\\', '\\']
  else if c = '\n' then ['\\', 'n']
  else if c = '\t' then ['\\', 't']
  else if c = '\r' then ['\\', 'r']
  else if c = '\x08' then ['\\', 'b']
  else if c = '\x0c' then ['\\', 'f']
  else [c]

/-- A JSON string literal for `s`: quote, escaped body, quote. -/
def serStrL (s : String) : List Char :=
  '"' :: ((s.toList.map escCh).flatten ++ ['"'])

mutual
/-- Exact JSON encoding of a value, as a character list. -/
def serV : JVal → List Char
  | .null => ("null").toList
  | .bool true => ("true").toList
  | .bool false => ("false").toList
  | .int n => intChs n
  | .str s => serStrL s
  | .arr es => '[' :: (serElems es ++ [']'])
  | .obj ms => '{' :: (serMems ms ++ ['}'])
termination_by structural v => v
/-- Comma-separated encodings of array elements. -/
def serElems : List JVal → List Char
  | [] => []
  | e :: es => serV e ++ serElemsTl es
termination_by structural v => v
/-- The `, tail` part of an element list. -/
def serElemsTl : List JVal → List Char
  | [] => []
  | e :: es => ',' :: (serV e ++ serElemsTl es)
termination_by structural v => v
/-- Comma-separated `"key":value` encodings of object members. -/
def serMems : List (String × JVal) → List Char
  | [] => []
  | (k, v) :: ms => serStrL k ++ ':' :: (serV v ++ serMemsTl ms)
termination_by structural v => v
/-- The `, tail` part of a member list. -/
def serMemsTl : List (String × JVal) → List Char
  | [] => []
  | (k, v) :: ms => ',' :: (serStrL k ++ ':' :: (serV v ++ serMemsTl ms))
termination_by structural v => v
end

/-- The serialized text of a mapping, as a `String` (`toJsonText(m)`). -/
def serObjStr (m : JObj) : String := String.mk (serV (.obj m))

/-! ## The modelled fragment: strings whose characters the encoder covers -/

/-- A character the modelled encoder/decoder round-trips: printable, or one
of the controls with a short escape. -/
def okCh (c : Char) : Bool :=
  32 ≤ c.toNat || c = '\n' || c = '\t' || c = '\r' || c = '\x08' || c = '\x0c'

def okStr (s : String) : Bool := s.toList.all okCh

mutual
/-- Every string in the value lies in the modelled fragment. -/
def okV : JVal → Bool
  | .null => true
  | .bool _ => true
  | .int _ => true
  | .str s => okStr s
  | .arr es => okElems es
  | .obj ms => okMems ms
termination_by structural v => v
/-- `okV` over array elements. -/
def okElems : List JVal → Bool
  | [] => true
  | e :: es => okV e && okElems es
termination_by structural v => v
/-- `okV` over object members (keys included). -/
def okMems : List (String × JVal) → Bool
  | [] => true
  | (k, v) :: ms => okStr k && okV v && okMems ms
termination_by structural v => v
end

/-! ## The decoder: `json.loads` on the modelled fragment

`jvP` is a fuel-indexed recursive-descent scanner; `pyLoads` runs it with
enough fuel for its input and demands that only whitespace remain, and
`tryLoad` (the code's `try_load`) is its `Option`-valued face: `none`
models a raised `json.JSONDecodeError` caught inside `try_load`. -/

/-- Strip a literal: `dropLit l cs = some r` iff `cs = l ++ r`. -/
def dropLit : List Char → List Char → Option (List Char)
  | [], cs => some cs
  | _ :: _, [] => none
  | p :: ps, c :: cs => if c = p then dropLit ps cs else none

/-- Decode the character named by a short escape. -/
def escDecode (c : Char) : Option Char :=
  if c = '"' then some '"'
  else if c = '\\' then some '\\'
  else if c = '/' then some '/'
  else if c = 'n' then some '\n'
  else if c = 't' then some '\t'
  else if c = 'r' then some '\r'
  else if c = 'b' then some '\x08'
  else if c = 'f' then some '\x0c'
  else none

/-- Scan a string body (after the opening quote) up to the closing quote,
decoding escapes; raw control characters are rejected (`strict=True`). -/
def strBody (acc : List Char) : List Char → Option (String × List Char)
  | [] => none
  | c :: cs =>
      if c = '"' then some (String.mk acc.reverse, cs)
      else if c = '\\' then
        match cs with
        | [] => none
        | e :: cs' =>
            match escDecode e with
            | some d => strBody (d :: acc) cs'
            | none => none
      else if c.toNat < 32 then none
      else strBody (c :: acc) cs

/-- Scan an integer literal: optional minus sign, then a digit run. -/
def intTok (cs : List Char) : Option (Int × List Char) :=
  match cs with
  | [] => none
  | c :: cs' =>
      if c = '-' then
        let p := grabDigits cs'
        if p.1.isEmpty then none else some (-(digitsVal p.1 : Int), p.2)
      else
        let p := grabDigits (c :: cs')
        if p.1.isEmpty then none else some ((digitsVal p.1 : Int), p.2)

mutual
/-- Scan one JSON value after skipping whitespace (fuel-indexed). -/
def jvP : Nat → List Char → Option (JVal × List Char)
  | 0, _ => none
  | fuel + 1, cs =>
      match skipJWs cs with
      | [] => none
      | c :: cs' =>
          if c = '{' then
            match skipJWs cs' with
            | '}' :: r => some (.obj [], r)
            | r => (jmP fuel r).map fun p => (.obj p.1, p.2)
          else if c = '[' then
            match skipJWs cs' with
            | ']' :: r => some (.arr [], r)
            | r => (jeP fuel r).map fun p => (.arr p.1, p.2)
          else if c = '"' then
            (strBody [] cs').map fun p => (.str p.1, p.2)
          else if c = 't' then
            (dropLit ['r', 'u', 'e'] cs').map fun r => (.bool true, r)
          else if c = 'f' then
            (dropLit ['a', 'l', 's', 'e'] cs').map fun r => (.bool false, r)
          else if c = 'n' then
            (dropLit ['u', 'l', 'l'] cs').map fun r => (.null, r)
          else if c = '-' || isDigitCh c then
            (intTok (c :: cs')).map fun p => (.int p.1, p.2)
          else none
termination_by structural fuel => fuel
/-- Scan the non-empty member list of an object and its closing brace. -/
def jmP : Nat → List Char → Option (List (String × JVal) × List Char)
  | 0, _ => none
  | fuel + 1, cs =>
      match cs with
      | '"' :: cs' =>
          match strBody [] cs' with
          | none => none
          | some (k, r1) =>
              match skipJWs r1 with
              | ':' :: r2 =>
                  match jvP fuel r2 with
                  | none => none
                  | some (v, r3) =>
                      match skipJWs r3 with
                      | ',' :: r4 =>
                          (jmP fuel (skipJWs r4)).map fun p => ((k, v) :: p.1, p.2)
                      | '}' :: r4 => some ([(k, v)], r4)
                      | _ => none
              | _ => none
      | _ => none
termination_by structural fuel => fuel
/-- Scan the non-empty element list of an array and its closing bracket. -/
def jeP : Nat → List Char → Option (List JVal × List Char)
  | 0, _ => none
  | fuel + 1, cs =>
      match jvP fuel cs with
      | none => none
      | some (v, r1) =>
          match skipJWs r1 with
          | ',' :: r2 => (jeP fuel r2).map fun p => (v :: p.1, p.2)
          | ']' :: r2 => some ([v], r2)
          | _ => none
termination_by structural fuel => fuel
end

/-- `json.loads` on a character list: one value, then only whitespace. -/
def pyLoads (cs : List Char) : Option JVal :=
  match jvP (cs.length + 1) cs with
  | some (v, r) => if skipJWs r = [] then some v else none
  | none => none

/-- The code's `try_load`: decode, `none` on any decode failure. -/
def tryLoad (s : String) : Option JVal := pyLoads s.toList

/-! ## Text search helpers used by the extraction cascade -/

/-- Split at the first occurrence of `pat`: `some (before, after)` with the
occurrence removed, scanning left to right as `re.search` does. -/
def subSplit (pat : List Char) : List Char → Option (List Char × List Char)
  | [] => if pat.isEmpty then some ([], []) else none
  | c :: cs =>
      if pat.isPrefixOf (c :: cs) then some ([], (c :: cs).drop pat.length)
      else (subSplit pat cs).map fun p => (c :: p.1, p.2)

/-- Whether `pat` occurs anywhere in `cs`. -/
def hasSub (pat cs : List Char) : Bool := (subSplit pat cs).isSome

/-- The backtick character (U+0060). -/
def btick : Char := Char.ofNat 96

/-- The opening marker of a fenced JSON block. -/
def fenceOpen : List Char := [btick, btick, btick, 'j', 's', 'o', 'n']

/-- A bare triple-backtick fence. -/
def fenceBar : List Char := [btick, btick, btick]

/-- The fenced content matched by ``re.search(r'```json(.*?)```', s, DOTALL)``:
text between the first `json` code-fence marker and the next fence. -/
def fenceContent (cs : List Char) : Option (List Char) :=
  match subSplit fenceOpen cs with
  | none => none
  | some (_, rest) =>
      match subSplit fenceBar rest with
      | none => none
      | some (content, _) => some content

/-- The greedy brace span matched by ``re.search(r'(\{.*\})', s, DOTALL)``:
from the first `{` to the last `}` after it, if both exist. -/
def braceSpan (cs : List Char) : Option (List Char) :=
  let s1 := cs.dropWhile fun c => !(c = '{')
  if s1.isEmpty then none
  else
    let s2 := (s1.reverse.dropWhile fun c => !(c = '}')).reverse
    if s2.isEmpty then none else some s2

/-- Python's `str.split("\n")`: pieces between newline separators
(always at least one piece). -/
def splitNl : List Char → List (List Char)
  | [] => [[]]
  | c :: cs =>
      if c = '\n' then [] :: splitNl cs
      else
        match splitNl cs with
        | [] => [[c]]
        | l :: ls => (c :: l) :: ls

/-! ## The extraction cascade (`ArticleCrew._parse_json_result`) -/

/-- The `isinstance` checks after a `try_load`: a mapping passes through; a
string is decoded once more (the double-encoded case, depth ≤ 2); anything
else yields nothing and the cascade moves on. -/
def dictOfLoaded : Option JVal → Option JObj
  | some (.obj d) => some d
  | some (.str inner) =>
      match tryLoad inner with
      | some (.obj d) => some d
      | _ => none
  | _ => none

/-- Decode a text and keep it only if it is (or doubly encodes) a mapping. -/
def loadDict (cs : List Char) : Option JObj := dictOfLoaded (pyLoads cs)

/-- The message of the `ValueError` raised when every strategy fails
(a fixed notice; the raw text is only printed to the debug log). -/
def noJsonMsg : String := "Não foi possível extrair JSON do resultado: veja log de debug"

/-- The message of the `ValueError` raised on a non-`dict`, non-`str` input. -/
def badTypeMsg (ty : String) : String :=
  "Tipo inesperado de resultado: <class \x27" ++ ty ++ "\x27>"

/-- Strategy 4: strip, split into lines, decode each stripped line, return
the first that is a mapping (no double-decode here, per the code). -/
def lineScan (cs : List Char) : Option JObj :=
  (splitNl (pyStrip cs)).findSome? fun l =>
    match pyLoads (pyStrip l) with
    | some (.obj d) => some d
    | _ => none

/-- The raw value handed to `_parse_json_result`: a native `dict`, a `str`,
or any other type (whose name the error message renders). -/
inductive RawOutput where
  | pyDict (d : JObj)
  | pyStr (s : String)
  | pyOther (typeName : String)

/-- `ArticleCrew._parse_json_result`: the ordered extraction cascade.
`Except.error` models the `ValueError` it raises. -/
def parseJsonResult : RawOutput → Except String JObj
  | .pyDict d => .ok d
  | .pyOther ty => .error (badTypeMsg ty)
  | .pyStr s =>
      let cs := s.toList
      match loadDict cs with
      | some d => .ok d
      | none =>
          match (fenceContent cs).bind fun content => loadDict (pyStrip content) with
          | some d => .ok d
          | none =>
              match (braceSpan cs).bind fun span => loadDict (pyStrip span) with
              | some d => .ok d
              | none =>
                  match lineScan cs with
                  | some d => .ok d
                  | none => .error noJsonMsg

/-! ## The pydantic models (`app/models/article.py`) -/

structure ArticleSection where
  title : String
  content : String

structure ArticleMetadata where
  keywords : List String
  sources : List String
  generated_at : Int

structure Article where
  title : String
  summary : String
  sections : List ArticleSection
  metadata : ArticleMetadata

def sectionContentMsg : String := "O conteúdo da seção deve ter pelo menos 50 caracteres"

def minSectionsMsg : String := "O artigo deve ter pelo menos 2 seções"

def summaryMsg : String := "O resumo deve ter pelo menos 100 caracteres"

/-- `ArticleSection(...)`: the `content_min_length` validator demands at
least 50 characters; `title` is any text (no validator). -/
def mkArticleSection (title content : String) : Except String ArticleSection :=
  if content.length < 50 then .error sectionContentMsg else .ok ⟨title, content⟩

/-- `Article(...)`: `summary_min_length` demands ≥ 100 characters and
`minimum_sections` demands ≥ 2 sections; `title` has no validator. -/
def mkArticle (title summary : String) (sections : List ArticleSection)
    (metadata : ArticleMetadata) : Except String Article :=
  if summary.length < 100 then .error summaryMsg
  else if sections.length < 2 then .error minSectionsMsg
  else .ok ⟨title, summary, sections, metadata⟩

/-! ## `ArticleCrew._convert_to_pydantic_model` -/

/-- Failures inside the conversion step, split the way `run` splits them:
a pydantic `ValidationError` (caught by the lenient fallback) or any other
exception (`AttributeError`/`TypeError`, caught only by the outer handler). -/
inductive ConvErr where
  | validationError (msg : String)
  | otherError (msg : String)

/-- Python's `type(v).__name__` for a decoded JSON value. -/
def pyTypeName : JVal → String
  | .null => "NoneType"
  | .bool _ => "bool"
  | .int _ => "int"
  | .str _ => "str"
  | .arr _ => "list"
  | .obj _ => "dict"

def noneMsg : String := "none is not an allowed value"

def strTypeMsg : String := "str type expected"

def listTypeMsg : String := "value is not a valid list"

def notIterableMsg (ty : String) : String :=
  "\x27" ++ ty ++ "\x27 object is not iterable"

def noGetAttrMsg (ty : String) : String :=
  "\x27" ++ ty ++ "\x27 object has no attribute \x27get\x27"

/-- pydantic v1 validation of a `str` field (lax: numbers and booleans
coerce, `None` and containers are `ValidationError`s). -/
def coerceStr : JVal → Except String String
  | .str s => .ok s
  | .int n => .ok (String.mk (intChs n))
  | .bool true => .ok ("True")
  | .bool false => .ok ("False")
  | .null => .error noneMsg
  | _ => .error strTypeMsg

/-- pydantic v1 validation of a `List[str]` field. -/
def coerceStrList : JVal → Except String (List String)
  | .arr xs => xs.mapM coerceStr
  | _ => .error listTypeMsg

/-- `dict.get`-style lookup on a decoded mapping (last binding wins, as
`json.loads` keeps the last value of a duplicated key). -/
def jLookup (ms : JObj) (k : String) : Option JVal :=
  ms.foldl (fun acc kv => if kv.1 = k then some kv.2 else acc) none

/-- `ms.get(k, dflt)`. -/
def jGetD (ms : JObj) (k : String) (dflt : JVal) : JVal := (jLookup ms k).getD dflt

def kTitle : String := "title"
def kContent : String := "content"
def kSummary : String := "summary"
def kSections : String := "sections"
def kMetadata : String := "metadata"
def kKeywords : String := "keywords"
def kSources : String := "sources"
def kGeneratedAt : String := "generated_at"

/-- Python `for sec in v`: lists iterate elements, strings iterate their
characters, dicts iterate keys; other values raise `TypeError`. -/
def pyIterate : JVal → Except String (List JVal)
  | .arr xs => .ok xs
  | .str s => .ok (s.toList.map fun c => .str (String.mk [c]))
  | .obj ms => .ok (ms.map fun kv => JVal.str kv.1)
  | v => .error (notIterableMsg (pyTypeName v))

/-- One pass of the sections loop: `sec.get("title", "")`,
`sec.get("content", "")`, then `ArticleSection(...)`; a non-mapping entry
raises `AttributeError` on `.get`. -/
def sectionFromVal (v : JVal) : Except ConvErr ArticleSection :=
  match v with
  | .obj ms => do
      let t ← (coerceStr (jGetD ms kTitle (.str ""))).mapError ConvErr.validationError
      let c ← (coerceStr (jGetD ms kContent (.str ""))).mapError ConvErr.validationError
      (mkArticleSection t c).mapError ConvErr.validationError
  | v => .error (.otherError (noGetAttrMsg (pyTypeName v)))

/-- `metadata_dict.get(...)` demands a mapping: any other value raises
`AttributeError` (no `.get` attribute). -/
def asPyDict (v : JVal) : Except ConvErr JObj :=
  match v with
  | .obj ms => .ok ms
  | v => .error (.otherError (noGetAttrMsg (pyTypeName v)))

/-- The sections loop itself: entries in order, first exception wins. -/
def sectionsFromVals : List JVal → Except ConvErr (List ArticleSection)
  | [] => .ok []
  | v :: vs => do
      let s ← sectionFromVal v
      let rest ← sectionsFromVals vs
      .ok (s :: rest)

/-- `ArticleCrew._convert_to_pydantic_model`: missing fields default to
empty text/sequences; `generated_at` is always the `now` supplied at this
step, never read from the mapping. -/
def convertToPydanticModel (d : JObj) (now : Int) : Except ConvErr Article := do
  let titleV := jGetD d kTitle (.str "")
  let summaryV := jGetD d kSummary (.str "")
  let entries ← (pyIterate (jGetD d kSections (.arr []))).mapError ConvErr.otherError
  let sections ← sectionsFromVals entries
  let mdict ← asPyDict (jGetD d kMetadata (.obj []))
  let keywords ← (coerceStrList (jGetD mdict kKeywords (.arr []))).mapError ConvErr.validationError
  let sources ← (coerceStrList (jGetD mdict kSources (.arr []))).mapError ConvErr.validationError
  let metadata : ArticleMetadata := ⟨keywords, sources, now⟩
  let t ← (coerceStr titleV).mapError ConvErr.validationError
  let s ← (coerceStr summaryV).mapError ConvErr.validationError
  (mkArticle t s sections metadata).mapError ConvErr.validationError

/-! ## `ArticleCrew.run` -/

/-- `article.model_dump()` of a section. -/
def dumpSection (s : ArticleSection) : JVal :=
  .obj [(kTitle, .str s.title), (kContent, .str s.content)]

/-- `article.model_dump()`: the validated article back as a plain mapping. -/
def dumpArticle (a : Article) : JObj :=
  [(kTitle, .str a.title), (kSummary, .str a.summary),
   (kSections, .arr (a.sections.map dumpSection)),
   (kMetadata, .obj [(kKeywords, .arr (a.metadata.keywords.map JVal.str)),
                     (kSources, .arr (a.metadata.sources.map JVal.str)),
                     (kGeneratedAt, .int a.metadata.generated_at)])]

/-- The `crew.kickoff()` return value: optional `output` / `result` /
`last_output()` attributes, and the `str(...)` rendering used otherwise. -/
structure CrewOutcome where
  outputAttr : Option RawOutput
  resultAttr : Option RawOutput
  lastOutputAttr : Option RawOutput
  strRepr : String

/-- Lines 134–142 of `article_crew.py`: unwrap a crew result through the
`hasattr` chain, falling back to its string rendering. -/
def unwrapCrewResult (c : CrewOutcome) : RawOutput :=
  match c.outputAttr with
  | some r => r
  | none =>
      match c.resultAttr with
      | some r => r
      | none =>
          match c.lastOutputAttr with
          | some r => r
          | none => .pyStr c.strRepr

/-- The dictionary `run` returns: `status` is encoded by the constructor,
and both variants carry `processing_time`. -/
inductive RunResult where
  | success (article : JObj) (processingTime : Int)
  | failure (message : String) (processingTime : Int)

/-- The `processing_time` entry of the result envelope. -/
def RunResult.ptime : RunResult → Int
  | .success _ t => t
  | .failure _ t => t

/-- `ArticleCrew.run`.  `stagesOutcome` embeds lines 122–142 (task
construction, `Crew(...)`, `kickoff()`), which sit *before* the `try`
block: its `.error` case is an exception raised there, which `run`
re-raises (`Except.error`).  The `try` block covers only extraction and
conversion; `ValidationError` from conversion triggers the lenient
fallback to the raw mapping, and any other exception inside the block
becomes the error envelope. -/
def run (topic : String) (minWords : Nat) (sectionsCount : Option Nat)
    (stagesOutcome : Except String CrewOutcome) (elapsed : Int) (now : Int) :
    Except String RunResult :=
  match stagesOutcome with
  | .error e => .error e
  | .ok cr =>
      let result := unwrapCrewResult cr
      .ok
        (match parseJsonResult result with
         | .error e => .failure e elapsed
         | .ok d =>
             match convertToPydanticModel d now with
             | .ok a => .success (dumpArticle a) elapsed
             | .error (.validationError _) => .success d elapsed
             | .error (.otherError e) => .failure e elapsed)

/-- A character that cannot begin any JSON token (not whitespace, quote,
bracket, brace, digit, sign, literal head, nor the head of Python's
`NaN`/`Infinity` extensions): scanning any text headed by it fails at once. -/
def badStart (c : Char) : Bool :=
  !(isJWs c || c = '{' || c = '[' || c = '"' || c = 't' || c = 'f' || c = 'n'
    || c = '-' || isDigitCh c || c = 'N' || c = 'I')

/-! ## Concrete fixtures used by the witness theorems -/

/-- A 60-character section content (meets the ≥ 50 invariant). -/
def sixtyA : String := String.mk (List.replicate 60 'a')

/-- Another 60-character section content. -/
def sixtyB : String := String.mk (List.replicate 60 'b')

/-- A 110-character summary (meets the ≥ 100 invariant). -/
def hundredTen : String := String.mk (List.replicate 110 's')

/-- A final-stage mapping that is valid JSON but has only one section. -/
def oneSectionObj : JObj :=
  [(kTitle, .str ("T")), (kSummary, .str hundredTen),
   (kSections, .arr [.obj [(kTitle, .str ("S1")), (kContent, .str sixtyA)]])]

/-- The serialized text of `oneSectionObj`, as a final raw stage output. -/
def oneSectionJson : String := serObjStr oneSectionObj

/-- A mapping whose `sections` entry is a bare string, so the conversion
loop calls `.get` on a `str` and raises `AttributeError`. -/
def notDictObj : JObj := [(kSections, .arr [.str ("x")])]

/-- A fully valid mapping that also carries its own `generated_at` text,
which the conversion must ignore. -/
def dGenAt : JObj :=
  [(kTitle, .str ("T")), (kSummary, .str hundredTen),
   (kSections, .arr
     [.obj [(kTitle, .str ("S1")), (kContent, .str sixtyA)],
      .obj [(kTitle, .str ("S2")), (kContent, .str sixtyB)]]),
   (kMetadata, .obj
     [(kKeywords, .arr [.str ("k")]), (kSources, .arr [.str ("s")]),
      (kGeneratedAt, .str ("2025-04-18T11:30:00"))])]

/-- The article `dGenAt` converts to when `now = 42`. -/
def aGenAt : Article :=
  ⟨"T", hundredTen, [⟨"S1", sixtyA⟩, ⟨"S2", sixtyB⟩], ⟨["k"], ["s"], 42⟩⟩

/-! ## Lemmas: scanner building blocks -/

theorem skipJWs_cons_of (c : Char) (cs : List Char) (h : isJWs c = false) :
    skipJWs (c :: cs) = c :: cs := by
  simp [skipJWs, List.dropWhile_cons, h]

theorem skipJWs_nil : skipJWs [] = [] := rfl

theorem dropLit_self (l r : List Char) : dropLit l (l ++ r) = some r := by
  induction l with
  | nil => rfl
  | cons c cs ih => simp [dropLit, ih]

theorem strBody_stop (acc cs : List Char) :
    strBody acc ('"' :: cs) = some (String.mk acc.reverse, cs) := by
  rw [strBody.eq_def]
  simp

theorem okCh_ge (c : Char) (h : okCh c = true)
    (h1 : ¬c = '\n') (h2 : ¬c = '\t') (h3 : ¬c = '\r')
    (h4 : ¬c = '\x08') (h5 : ¬c = '\x0c') : ¬c.toNat < 32 := by
  intro hlt
  rw [okCh] at h
  simp only [Bool.or_eq_true, decide_eq_true_eq] at h
  rcases h with (((((h | h) | h) | h) | h) | h)
  · omega
  · exact h1 h
  · exact h2 h
  · exact h3 h
  · exact h4 h
  · exact h5 h

theorem strBody_esc (c : Char) (acc r : List Char) (h : okCh c = true) :
    strBody acc (escCh c ++ r) = strBody (c :: acc) r := by
  rw [escCh]
  split_ifs with h1 h2 h3 h4 h5 h6 h7
  · subst h1; simp [strBody, escDecode]
  · subst h2; simp [strBody, escDecode]
  · subst h3; simp [strBody, escDecode]
  · subst h4; simp [strBody, escDecode]
  · subst h5; simp [strBody, escDecode]
  · subst h6; simp [strBody, escDecode]
  · subst h7; simp [strBody, escDecode]
  · rw [List.singleton_append, strBody.eq_def]
    simp [h1, h2, okCh_ge c h h3 h4 h5 h6 h7]

theorem strBody_flat (cs : List Char) (hok : ∀ c ∈ cs, okCh c = true) :
    ∀ acc r, strBody acc ((cs.map escCh).flatten ++ '"' :: r)
      = some (String.mk (acc.reverse ++ cs), r) := by
  induction cs with
  | nil => intro acc r; simp [strBody_stop]
  | cons c cs ih =>
      intro acc r
      rw [List.map_cons, List.flatten_cons, List.append_assoc,
        strBody_esc c acc _ (hok c (by simp)),
        ih (fun x hx => hok x (by simp [hx]))]
      simp

theorem strBody_ser (s : String) (r : List Char) (hok : okStr s = true) :
    strBody [] ((s.toList.map escCh).flatten ++ '"' :: r) = some (s, r) := by
  have hall : ∀ c ∈ s.toList, okCh c = true := by
    simpa [okStr, List.all_eq_true] using hok
  rw [strBody_flat s.toList hall [] r]
  rfl

/-! ## Lemmas: digits and integers -/

theorem digitCh_isDigit (k : Nat) (h : k < 10) : isDigitCh (digitCh k) = true := by
  interval_cases k <;> decide

theorem digitCh_val (k : Nat) (h : k < 10) : (digitCh k).toNat = 48 + k := by
  interval_cases k <;> decide

theorem natDigitsGo_fuel (n : Nat) : ∀ f g acc, n < f → n < g →
    natDigitsGo f n acc = natDigitsGo g n acc := by
  induction n using Nat.strongRecOn with
  | _ n ih =>
    intro f g acc hf hg
    cases f with
    | zero => omega
    | succ f =>
      cases g with
      | zero => omega
      | succ g =>
        simp only [natDigitsGo]
        by_cases h : n < 10
        · simp [h]
        · simp only [if_neg h]
          exact ih (n / 10) (Nat.div_lt_self (by omega) (by omega)) f g _
            (by omega) (by omega)

theorem natDigits_unfold (n : Nat) (acc : List Char) :
    natDigits n acc
      = if n < 10 then digitCh n :: acc
        else natDigits (n / 10) (digitCh (n % 10) :: acc) := by
  simp only [natDigits, natDigitsGo]
  by_cases h : n < 10
  · simp [h]
  · simp only [if_neg h]
    exact natDigitsGo_fuel (n / 10) n (n / 10 + 1) _
      (Nat.div_lt_self (by omega) (by omega)) (by omega)

theorem natDigits_acc (n : Nat) : ∀ acc, natDigits n acc = natDigits n [] ++ acc := by
  induction n using Nat.strongRecOn with
  | _ n ih =>
    intro acc
    rw [natDigits_unfold n acc, natDigits_unfold n []]
    by_cases h : n < 10
    · simp [h]
    · simp only [if_neg h]
      rw [ih (n / 10) (Nat.div_lt_self (by omega) (by omega)),
        ih (n / 10) (Nat.div_lt_self (by omega) (by omega)) [digitCh (n % 10)]]
      simp

theorem natDigits_step (n : Nat) :
    natDigits n [] = (if n < 10 then [] else natDigits (n / 10) []) ++ [digitCh (n % 10)] := by
  rw [natDigits_unfold]
  by_cases h : n < 10
  · simp [h, Nat.mod_eq_of_lt h]
  · simp only [if_neg h]
    exact natDigits_acc (n / 10) [digitCh (n % 10)]

theorem natDigits_ne_nil (n : Nat) : natDigits n [] ≠ [] := by
  rw [natDigits_step]; simp

theorem natDigits_digits (n : Nat) : ∀ c ∈ natDigits n [], isDigitCh c = true := by
  induction n using Nat.strongRecOn with
  | _ n ih =>
    intro c hc
    rw [natDigits_step] at hc
    rcases List.mem_append.mp hc with h | h
    · by_cases h10 : n < 10
      · simp [h10] at h
      · exact ih (n / 10) (Nat.div_lt_self (by omega) (by omega)) c (by simpa [h10] using h)
    · rw [List.mem_singleton] at h
      subst h
      exact digitCh_isDigit _ (Nat.mod_lt _ (by omega))

theorem digitsVal_append_one (l : List Char) (d : Char) :
    digitsVal (l ++ [d]) = digitsVal l * 10 + (d.toNat - 48) := by
  simp [digitsVal, List.foldl_append]

theorem digitsVal_natDigits (n : Nat) : digitsVal (natDigits n []) = n := by
  induction n using Nat.strongRecOn with
  | _ n ih =>
    rw [natDigits_step, digitsVal_append_one]
    by_cases h : n < 10
    · simp only [if_pos h]
      rw [digitCh_val _ (Nat.mod_lt _ (by omega))]
      simp [digitsVal]
      omega
    · simp only [if_neg h]
      rw [ih (n / 10) (Nat.div_lt_self (by omega) (by omega)),
        digitCh_val _ (Nat.mod_lt _ (by omega))]
      omega

theorem grabDigits_stop (cs : List Char) (h : noDigit cs = true) :
    grabDigits cs = ([], cs) := by
  match cs with
  | [] => rfl
  | c :: t =>
      simp only [noDigit, Bool.not_eq_true'] at h
      simp [grabDigits, h]

theorem grabDigits_run (ds rest : List Char) (hd : ∀ c ∈ ds, isDigitCh c = true)
    (hr : noDigit rest = true) : grabDigits (ds ++ rest) = (ds, rest) := by
  induction ds with
  | nil => simpa using grabDigits_stop rest hr
  | cons c t ih =>
      have hc : isDigitCh c = true := hd c (by simp)
      rw [List.cons_append, grabDigits]
      simp [hc, ih (fun x hx => hd x (by simp [hx]))]

theorem isDigit_ne (c x : Char) (h : isDigitCh c = true) (hx : isDigitCh x = false) :
    c ≠ x := by
  intro he
  subst he
  rw [h] at hx
  exact Bool.noConfusion hx

theorem intTok_ser (i : Int) (rest : List Char) (hr : noDigit rest = true) :
    intTok (intChs i ++ rest) = some (i, rest) := by
  by_cases hi : i < 0
  · have harg : intChs i ++ rest = '-' :: (natDigits i.natAbs [] ++ rest) := by
      simp [intChs, hi]
    rw [harg, intTok]
    simp only [if_pos rfl]
    rw [grabDigits_run _ _ (natDigits_digits _) hr]
    have habs : ((i.natAbs : Int)) = -i := Int.ofNat_natAbs_of_nonpos (by omega)
    simp [natDigits_ne_nil, digitsVal_natDigits, habs]
  · obtain ⟨c, t, hct⟩ : ∃ c t, natDigits i.natAbs [] = c :: t := by
      match h : natDigits i.natAbs [] with
      | [] => exact absurd h (natDigits_ne_nil _)
      | c :: t => exact ⟨c, t, rfl⟩
    have hc : isDigitCh c = true := natDigits_digits _ c (hct ▸ List.mem_cons_self ..)
    have harg : intChs i ++ rest = c :: (t ++ rest) := by
      simp [intChs, hi, hct]
    rw [harg, intTok]
    rw [if_neg (isDigit_ne c '-' hc (by decide))]
    have hgrab : grabDigits (c :: (t ++ rest)) = (c :: t, rest) := by
      have := grabDigits_run (natDigits i.natAbs []) rest (natDigits_digits _) hr
      rwa [hct, List.cons_append] at this
    simp only [hgrab]
    have hval : digitsVal (c :: t) = i.natAbs := by
      have := digitsVal_natDigits i.natAbs
      rwa [hct] at this
    have habs : ((i.natAbs : Int)) = i := Int.natAbs_of_nonneg (by omega)
    simp [hval, habs]

/-! ## Lemmas: serializer shapes and lengths -/

theorem serMemsTl_cons (k : String) (v : JVal) (ms : List (String × JVal)) :
    serMemsTl ((k, v) :: ms) = ',' :: serMems ((k, v) :: ms) := rfl

theorem serElemsTl_cons (e : JVal) (es : List JVal) :
    serElemsTl (e :: es) = ',' :: serElems (e :: es) := rfl

theorem natDigits_shape (m : Nat) :
    ∃ c t, natDigits m [] = c :: t ∧ isDigitCh c = true := by
  match h : natDigits m [] with
  | [] => exact absurd h (natDigits_ne_nil m)
  | c :: t => exact ⟨c, t, rfl, natDigits_digits m c (h ▸ List.mem_cons_self ..)⟩

theorem digit_not_jws (c : Char) (h : isDigitCh c = true) : isJWs c = false := by
  simp [isJWs, isDigit_ne c ' ' h (by decide), isDigit_ne c '\t' h (by decide),
    isDigit_ne c '\n' h (by decide), isDigit_ne c '\r' h (by decide)]

theorem serV_pos (v : JVal) : 1 ≤ (serV v).length := by
  cases v with
  | null => simp [serV]
  | bool b => cases b <;> simp [serV]
  | int n =>
      have h := natDigits_ne_nil n.natAbs
      simp [serV, intChs]
      cases hd : natDigits n.natAbs [] with
      | nil => exact absurd hd h
      | cons c t => simp [hd]; omega
  | str s => simp [serV, serStrL]
  | arr es => simp [serV]
  | obj ms => simp [serV]

theorem serStrL_two (s : String) : 2 ≤ (serStrL s).length := by
  simp [serStrL]

theorem serV_head (v : JVal) :
    ∃ c t, serV v = c :: t ∧ isJWs c = false ∧ c ≠ ']' ∧ c ≠ '}' := by
  have hlit : ∀ c : Char, c ∈ ['n', 't', 'f', '"', '[', '{', '-']
      → isJWs c = false ∧ c ≠ ']' ∧ c ≠ '}' := by decide
  cases v with
  | null => exact ⟨'n', _, rfl, hlit 'n' (by decide)⟩
  | bool b =>
      cases b with
      | true => exact ⟨'t', _, rfl, hlit 't' (by decide)⟩
      | false => exact ⟨'f', _, rfl, hlit 'f' (by decide)⟩
  | int n =>
      by_cases hn : n < 0
      · refine ⟨'-', natDigits n.natAbs [], ?_, hlit '-' (by decide)⟩
        simp [serV, intChs, hn]
      · obtain ⟨c, t, hct, hc⟩ := natDigits_shape n.natAbs
        refine ⟨c, t, ?_, digit_not_jws c hc,
          isDigit_ne c ']' hc (by decide), isDigit_ne c '}' hc (by decide)⟩
        simp [serV, intChs, hn, hct]
  | str s => exact ⟨'"', _, rfl, hlit '"' (by decide)⟩
  | arr es => exact ⟨'[', _, rfl, hlit '[' (by decide)⟩
  | obj ms => exact ⟨'{', _, rfl, hlit '{' (by decide)⟩

theorem noDigit_memsTl (ms : List (String × JVal)) (rest : List Char) :
    noDigit (serMemsTl ms ++ '}' :: rest) = true := by
  cases ms with
  | nil => simp [serMemsTl, noDigit]; decide
  | cons kv ms =>
      obtain ⟨k, v⟩ := kv
      rw [serMemsTl_cons, List.cons_append]
      simp [noDigit]; decide

theorem noDigit_elemsTl (es : List JVal) (rest : List Char) :
    noDigit (serElemsTl es ++ ']' :: rest) = true := by
  cases es with
  | nil => simp [serElemsTl, noDigit]; decide
  | cons e es =>
      rw [serElemsTl_cons, List.cons_append]
      simp [noDigit]; decide

theorem okMems_parts (k : String) (v : JVal) (ms : List (String × JVal))
    (h : okMems ((k, v) :: ms) = true) :
    okStr k = true ∧ okV v = true ∧ okMems ms = true := by
  simpa [okMems, Bool.and_eq_true, and_assoc] using h

theorem okElems_parts (e : JVal) (es : List JVal)
    (h : okElems (e :: es) = true) : okV e = true ∧ okElems es = true := by
  simpa [okElems, Bool.and_eq_true] using h

/-! ## Lemmas: the scanner inverts the encoder (branch cases) -/

theorem jvP_null (fuel : Nat) (rest : List Char) :
    jvP (fuel + 1) (serV .null ++ rest) = some (.null, rest) := by
  show jvP (fuel + 1) ('n' :: (['u', 'l', 'l'] ++ rest)) = some (.null, rest)
  simp [jvP, skipJWs, List.dropWhile, isJWs, dropLit]

theorem jvP_true (fuel : Nat) (rest : List Char) :
    jvP (fuel + 1) (serV (.bool true) ++ rest) = some (.bool true, rest) := by
  show jvP (fuel + 1) ('t' :: (['r', 'u', 'e'] ++ rest)) = some (.bool true, rest)
  simp [jvP, skipJWs, List.dropWhile, isJWs, dropLit]

theorem jvP_false (fuel : Nat) (rest : List Char) :
    jvP (fuel + 1) (serV (.bool false) ++ rest) = some (.bool false, rest) := by
  show jvP (fuel + 1) ('f' :: (['a', 'l', 's', 'e'] ++ rest)) = some (.bool false, rest)
  simp [jvP, skipJWs, List.dropWhile, isJWs, dropLit]

theorem jvP_int (fuel : Nat) (i : Int) (rest : List Char) (hr : noDigit rest = true) :
    jvP (fuel + 1) (serV (.int i) ++ rest) = some (.int i, rest) := by
  have htok := intTok_ser i rest hr
  by_cases hn : i < 0
  · have harg : serV (.int i) ++ rest = '-' :: (natDigits i.natAbs [] ++ rest) := by
      simp [serV, intChs, hn]
    have harg2 : intChs i ++ rest = '-' :: (natDigits i.natAbs [] ++ rest) := by
      simp [intChs, hn]
    rw [harg]
    rw [harg2] at htok
    simp [jvP, skipJWs, List.dropWhile, isJWs, htok]
  · obtain ⟨c, t, hct, hc⟩ := natDigits_shape i.natAbs
    have harg : serV (.int i) ++ rest = c :: (t ++ rest) := by
      simp [serV, intChs, hn, hct]
    have harg2 : intChs i ++ rest = c :: (t ++ rest) := by
      simp [intChs, hn, hct]
    rw [harg]
    rw [harg2] at htok
    simp [jvP, skipJWs, List.dropWhile, digit_not_jws c hc, htok,
      isDigit_ne c '{' hc (by decide), isDigit_ne c '[' hc (by decide),
      isDigit_ne c '"' hc (by decide), isDigit_ne c 't' hc (by decide),
      isDigit_ne c 'f' hc (by decide), isDigit_ne c 'n' hc (by decide), hc]

theorem jvP_str (fuel : Nat) (s : String) (rest : List Char) (hs : okStr s = true) :
    jvP (fuel + 1) (serV (.str s) ++ rest) = some (.str s, rest) := by
  have harg : serV (.str s) ++ rest
      = '"' :: ((s.toList.map escCh).flatten ++ '"' :: rest) := by
    simp [serV, serStrL]
  rw [harg]
  have hsb : strBody [] ((List.map escCh s.data).flatten ++ '"' :: rest) = some (s, rest) :=
    strBody_ser s rest hs
  simp [jvP, skipJWs, List.dropWhile, isJWs, hsb]

theorem jvP_objNil (fuel : Nat) (rest : List Char) :
    jvP (fuel + 1) (serV (.obj []) ++ rest) = some (.obj [], rest) := by
  show jvP (fuel + 1) ('{' :: '}' :: rest) = some (.obj [], rest)
  simp [jvP, skipJWs, List.dropWhile, isJWs]

theorem jvP_arrNil (fuel : Nat) (rest : List Char) :
    jvP (fuel + 1) (serV (.arr []) ++ rest) = some (.arr [], rest) := by
  show jvP (fuel + 1) ('[' :: ']' :: rest) = some (.arr [], rest)
  simp [jvP, skipJWs, List.dropWhile, isJWs]

theorem jvP_objCons (fuel : Nat) (k : String) (v : JVal) (ms : List (String × JVal))
    (rest : List Char) :
    jvP (fuel + 1) (serV (.obj ((k, v) :: ms)) ++ rest)
      = (jmP fuel (serMems ((k, v) :: ms) ++ '}' :: rest)).map
          fun p => (JVal.obj p.1, p.2) := by
  have harg : serV (.obj ((k, v) :: ms)) ++ rest
      = '{' :: (serMems ((k, v) :: ms) ++ '}' :: rest) := by
    simp [serV]
  have hmem : serMems ((k, v) :: ms) ++ '}' :: rest
      = '"' :: (((k.toList.map escCh).flatten ++ ['"'])
          ++ (':' :: (serV v ++ serMemsTl ms)) ++ '}' :: rest) := by
    simp [serMems, serStrL]
  rw [harg]
  simp only [jvP]
  rw [skipJWs_cons_of _ _ (by decide)]
  simp only [reduceIte]
  rw [hmem, skipJWs_cons_of _ _ (by decide)]
  simp

theorem jvP_arrCons (fuel : Nat) (e : JVal) (es : List JVal) (rest : List Char) :
    jvP (fuel + 1) (serV (.arr (e :: es)) ++ rest)
      = (jeP fuel (serElems (e :: es) ++ ']' :: rest)).map
          fun p => (JVal.arr p.1, p.2) := by
  obtain ⟨c, t, hct, hws, hbrk, _⟩ := serV_head e
  have harg : serV (.arr (e :: es)) ++ rest
      = '[' :: (serElems (e :: es) ++ ']' :: rest) := by
    simp [serV]
  have helem : serElems (e :: es) ++ ']' :: rest
      = c :: (t ++ serElemsTl es ++ ']' :: rest) := by
    simp [serElems, hct]
  rw [harg]
  simp only [jvP]
  rw [skipJWs_cons_of _ _ (by decide)]
  simp only [reduceIte]
  rw [helem, skipJWs_cons_of _ _ hws]
  simp [hbrk]

/-! ## Lemmas: length bounds feeding the fuel induction -/

theorem serV_obj_len (ms : List (String × JVal)) :
    (serV (.obj ms)).length = (serMems ms).length + 2 := by
  simp [serV]

theorem serV_arr_len (es : List JVal) :
    (serV (.arr es)).length = (serElems es).length + 2 := by
  simp [serV]

theorem serV_le_mems (k : String) (v : JVal) (ms : List (String × JVal)) :
    (serV v).length + 3 ≤ (serMems ((k, v) :: ms)).length := by
  have h1 := serStrL_two k
  simp [serMems]
  omega

theorem memsTl_lt_mems (k k2 : String) (v v2 : JVal) (ms2 : List (String × JVal)) :
    (serMems ((k2, v2) :: ms2)).length + 1
      < (serMems ((k, v) :: (k2, v2) :: ms2)).length := by
  have h1 := serStrL_two k
  have h2 := serV_pos v
  have hx : serMems ((k, v) :: (k2, v2) :: ms2)
      = serStrL k ++ ':' :: (serV v ++ (',' :: serMems ((k2, v2) :: ms2))) := by
    rw [serMems, serMemsTl_cons]
  rw [hx]
  simp
  omega

theorem serV_le_elems (e : JVal) (es : List JVal) :
    (serV e).length ≤ (serElems (e :: es)).length := by
  simp [serElems]

theorem elemsTl_lt_elems (e e2 : JVal) (es2 : List JVal) :
    (serElems (e2 :: es2)).length + 1 < (serElems (e :: e2 :: es2)).length := by
  have h2 := serV_pos e
  have hx : serElems (e :: e2 :: es2)
      = serV e ++ (',' :: serElems (e2 :: es2)) := by
    rw [serElems, serElemsTl_cons]
  rw [hx]
  simp
  omega

theorem skipJWs_mems (k : String) (v : JVal) (ms : List (String × JVal)) (r : List Char) :
    skipJWs (serMems ((k, v) :: ms) ++ r) = serMems ((k, v) :: ms) ++ r := by
  have hx : serMems ((k, v) :: ms) ++ r
      = '"' :: (((k.toList.map escCh).flatten ++ ['"'])
          ++ (':' :: (serV v ++ serMemsTl ms)) ++ r) := by
    simp [serMems, serStrL]
  rw [hx, skipJWs_cons_of _ _ (by decide)]

/-! ## The round-trip: the scanner inverts the encoder -/

theorem rtAll : ∀ fuel : Nat,
    (∀ v rest, okV v = true → (serV v).length < fuel → noDigit rest = true →
      jvP fuel (serV v ++ rest) = some (v, rest)) ∧
    (∀ k v ms rest, okMems ((k, v) :: ms) = true →
      (serMems ((k, v) :: ms)).length + 1 < fuel →
      jmP fuel (serMems ((k, v) :: ms) ++ '}' :: rest) = some ((k, v) :: ms, rest)) ∧
    (∀ e es rest, okElems (e :: es) = true →
      (serElems (e :: es)).length + 1 < fuel →
      jeP fuel (serElems (e :: es) ++ ']' :: rest) = some (e :: es, rest)) := by
  intro fuel
  induction fuel using Nat.strongRecOn with
  | _ fuel ih =>
    cases fuel with
    | zero =>
        refine ⟨?_, ?_, ?_⟩
        · intro v rest _ hlen _
          exact absurd hlen (Nat.not_lt_zero _)
        · intro k v ms rest _ hlen
          exact absurd hlen (Nat.not_lt_zero _)
        · intro e es rest _ hlen
          exact absurd hlen (Nat.not_lt_zero _)
    | succ f =>
        obtain ⟨ihV, ihM, ihE⟩ := ih f (Nat.lt_succ_self f)
        refine ⟨?_, ?_, ?_⟩
        · -- one value
          intro v rest hok hlen hnd
          cases v with
          | null => exact jvP_null f rest
          | bool b =>
              cases b with
              | true => exact jvP_true f rest
              | false => exact jvP_false f rest
          | int i => exact jvP_int f i rest hnd
          | str s => exact jvP_str f s rest (by simpa [okV] using hok)
          | arr es =>
              cases es with
              | nil => exact jvP_arrNil f rest
              | cons e es =>
                  have hoke : okElems (e :: es) = true := by simpa [okV] using hok
                  have hbound : (serElems (e :: es)).length + 1 < f := by
                    have := serV_arr_len (e :: es)
                    omega
                  rw [jvP_arrCons, ihE e es rest hoke hbound]
                  rfl
          | obj ms =>
              cases ms with
              | nil => exact jvP_objNil f rest
              | cons kv ms =>
                  obtain ⟨k, v⟩ := kv
                  have hokm : okMems ((k, v) :: ms) = true := by simpa [okV] using hok
                  have hbound : (serMems ((k, v) :: ms)).length + 1 < f := by
                    have := serV_obj_len ((k, v) :: ms)
                    omega
                  rw [jvP_objCons, ihM k v ms rest hokm hbound]
                  rfl
        · -- a member run and its closing brace
          intro k v ms rest hok hlen
          obtain ⟨hk, hv, hms⟩ := okMems_parts k v ms hok
          have hkall : ∀ c ∈ k.toList, okCh c = true := by
            simpa [okStr, List.all_eq_true] using hk
          have harg : serMems ((k, v) :: ms) ++ '}' :: rest
              = '"' :: ((k.toList.map escCh).flatten
                  ++ '"' :: (':' :: (serV v ++ (serMemsTl ms ++ '}' :: rest)))) := by
            simp [serMems, serStrL]
          have hvlen : (serV v).length < f := by
            have := serV_le_mems k v ms
            omega
          have hval := ihV v (serMemsTl ms ++ '}' :: rest) hv hvlen (noDigit_memsTl ms rest)
          rw [harg]
          simp only [jmP]
          rw [strBody_flat k.toList hkall [] _]
          simp only [List.nil_append]
          rw [skipJWs_cons_of _ _ (by decide)]
          have hmk : String.mk k.toList = k := rfl
          simp only [hmk]
          rw [hval]
          cases ms with
          | nil => simp [serMemsTl, skipJWs, List.dropWhile, isJWs]
          | cons kv2 ms2 =>
              obtain ⟨k2, v2⟩ := kv2
              have hbound2 : (serMems ((k2, v2) :: ms2)).length + 1 < f := by
                have := memsTl_lt_mems k k2 v v2 ms2
                omega
              have htail := ihM k2 v2 ms2 rest hms hbound2
              rw [serMemsTl_cons, List.cons_append]
              simp [skipJWs, List.dropWhile, isJWs]
              simp only [serMems, serStrL, String.toList, List.cons_append,
                List.append_assoc] at htail
              exact htail
        · -- an element run and its closing bracket
          intro e es rest hok hlen
          obtain ⟨he, hes⟩ := okElems_parts e es hok
          have helen : (serV e).length < f := by
            have := serV_le_elems e es
            omega
          have harg : serElems (e :: es) ++ ']' :: rest
              = serV e ++ (serElemsTl es ++ ']' :: rest) := by
            simp [serElems]
          have hval := ihV e (serElemsTl es ++ ']' :: rest) he helen (noDigit_elemsTl es rest)
          rw [harg]
          simp only [jeP]
          rw [hval]
          cases es with
          | nil => simp [serElemsTl, skipJWs, List.dropWhile, isJWs]
          | cons e2 es2 =>
              have hbound2 : (serElems (e2 :: es2)).length + 1 < f := by
                have := elemsTl_lt_elems e e2 es2
                omega
              have htail := ihE e2 es2 rest hes hbound2
              rw [serElemsTl_cons, List.cons_append]
              simp only [skipJWs, List.dropWhile, isJWs]
              simp
              rw [htail]

/-- `json.loads (toJsonText v) = v` on the modelled fragment. -/
theorem pyLoads_ser (v : JVal) (hok : okV v = true) : pyLoads (serV v) = some v := by
  have h := (rtAll ((serV v).length + 1)).1 v [] hok (by omega) rfl
  rw [List.append_nil] at h
  simp [pyLoads, h, skipJWs]

/-! ## Lemmas: every character the encoder emits is printable -/

theorem escCh_ge (c : Char) (h : okCh c = true) : ∀ x ∈ escCh c, 32 ≤ x.toNat := by
  intro x hx
  rw [escCh] at hx
  split_ifs at hx with h1 h2 h3 h4 h5 h6 h7
  · fin_cases hx <;> decide
  · fin_cases hx <;> decide
  · fin_cases hx <;> decide
  · fin_cases hx <;> decide
  · fin_cases hx <;> decide
  · fin_cases hx <;> decide
  · fin_cases hx <;> decide
  · rw [List.mem_singleton] at hx
    subst hx
    exact Nat.le_of_not_lt (okCh_ge x h h3 h4 h5 h6 h7)

theorem serStrL_ge (s : String) (hs : okStr s = true) :
    ∀ x ∈ serStrL s, 32 ≤ x.toNat := by
  have hall : ∀ c ∈ s.toList, okCh c = true := by
    simpa [okStr, List.all_eq_true] using hs
  intro x hx
  rw [serStrL] at hx
  rcases List.mem_cons.mp hx with hx | hx
  · subst hx; decide
  · rcases List.mem_append.mp hx with hx | hx
    · obtain ⟨l, hl, hxl⟩ := List.mem_flatten.mp hx
      obtain ⟨c, hc, hcl⟩ := List.mem_map.mp hl
      exact escCh_ge c (hall c hc) x (hcl ▸ hxl)
    · rw [List.mem_singleton] at hx; subst hx; decide

theorem intChs_ge (i : Int) : ∀ x ∈ intChs i, 32 ≤ x.toNat := by
  intro x hx
  rw [intChs] at hx
  rcases List.mem_append.mp hx with hx | hx
  · split_ifs at hx
    · rw [List.mem_singleton] at hx; subst hx; decide
    · simp at hx
  · have := natDigits_digits i.natAbs x hx
    simp only [isDigitCh, Bool.and_eq_true, decide_eq_true_eq] at this
    omega

mutual
theorem serV_ge : ∀ v : JVal, okV v = true → ∀ x ∈ serV v, 32 ≤ x.toNat
  | .null, _ => by intro x hx; fin_cases hx <;> decide
  | .bool true, _ => by intro x hx; fin_cases hx <;> decide
  | .bool false, _ => by intro x hx; fin_cases hx <;> decide
  | .int i, _ => intChs_ge i
  | .str s, hv => serStrL_ge s (by simpa [okV] using hv)
  | .arr es, hv => by
      intro x hx
      rw [serV] at hx
      rcases List.mem_cons.mp hx with hx | hx
      · subst hx; decide
      · rcases List.mem_append.mp hx with hx | hx
        · exact serElems_ge es (by simpa [okV] using hv) x hx
        · rw [List.mem_singleton] at hx; subst hx; decide
  | .obj ms, hv => by
      intro x hx
      rw [serV] at hx
      rcases List.mem_cons.mp hx with hx | hx
      · subst hx; decide
      · rcases List.mem_append.mp hx with hx | hx
        · exact serMems_ge ms (by simpa [okV] using hv) x hx
        · rw [List.mem_singleton] at hx; subst hx; decide
termination_by structural v => v
theorem serElems_ge : ∀ es : List JVal, okElems es = true → ∀ x ∈ serElems es, 32 ≤ x.toNat
  | [], _ => by intro x hx; simp [serElems] at hx
  | e :: es, h => by
      intro x hx
      obtain ⟨he, hes⟩ := okElems_parts e es h
      rw [serElems] at hx
      rcases List.mem_append.mp hx with hx | hx
      · exact serV_ge e he x hx
      · exact serElemsTl_ge es hes x hx
termination_by structural v => v
theorem serElemsTl_ge : ∀ es : List JVal, okElems es = true → ∀ x ∈ serElemsTl es, 32 ≤ x.toNat
  | [], _ => by intro x hx; simp [serElemsTl] at hx
  | e :: es, h => by
      intro x hx
      obtain ⟨he, hes⟩ := okElems_parts e es h
      rw [serElemsTl] at hx
      rcases List.mem_cons.mp hx with hx | hx
      · subst hx; decide
      · rcases List.mem_append.mp hx with hx | hx
        · exact serV_ge e he x hx
        · exact serElemsTl_ge es hes x hx
termination_by structural v => v
theorem serMems_ge : ∀ ms : List (String × JVal), okMems ms = true →
    ∀ x ∈ serMems ms, 32 ≤ x.toNat
  | [], _ => by intro x hx; simp [serMems] at hx
  | (k, v) :: ms, h => by
      intro x hx
      obtain ⟨hk, hv, hms⟩ := okMems_parts k v ms h
      rw [serMems] at hx
      rcases List.mem_append.mp hx with hx | hx
      · exact serStrL_ge k hk x hx
      · rcases List.mem_cons.mp hx with hx | hx
        · subst hx; decide
        · rcases List.mem_append.mp hx with hx | hx
          · exact serV_ge v hv x hx
          · exact serMemsTl_ge ms hms x hx
termination_by structural v => v
theorem serMemsTl_ge : ∀ ms : List (String × JVal), okMems ms = true →
    ∀ x ∈ serMemsTl ms, 32 ≤ x.toNat
  | [], _ => by intro x hx; simp [serMemsTl] at hx
  | (k, v) :: ms, h => by
      intro x hx
      obtain ⟨hk, hv, hms⟩ := okMems_parts k v ms h
      rw [serMemsTl] at hx
      rcases List.mem_cons.mp hx with hx | hx
      · subst hx; decide
      · rcases List.mem_append.mp hx with hx | hx
        · exact serStrL_ge k hk x hx
        · rcases List.mem_cons.mp hx with hx | hx
          · subst hx; decide
          · rcases List.mem_append.mp hx with hx | hx
            · exact serV_ge v hv x hx
            · exact serMemsTl_ge ms hms x hx
termination_by structural v => v
end

/-- `toJsonText(m)` itself lies in the modelled string fragment, so it can be
JSON-encoded once more (the double-encoding of §C7). -/
theorem okStr_serObjStr (m : JObj) (hm : okV (.obj m) = true) :
    okStr (serObjStr m) = true := by
  rw [okStr, List.all_eq_true]
  intro c hc
  have : 32 ≤ c.toNat := serV_ge (.obj m) hm c hc
  simp [okCh]
  omega

/-! ## Lemmas: the extraction cascade on embedded payloads -/

theorem badStart_parts (c : Char) (h : badStart c = true) :
    isJWs c = false ∧ c ≠ '{' ∧ c ≠ '[' ∧ c ≠ '"' ∧ c ≠ 't' ∧ c ≠ 'f'
      ∧ c ≠ 'n' ∧ c ≠ '-' ∧ isDigitCh c = false := by
  rw [badStart] at h
  simp only [Bool.not_eq_true', Bool.or_eq_false_iff, decide_eq_false_iff_not] at h
  exact ⟨h.1.1.1.1.1.1.1.1.1.1, h.1.1.1.1.1.1.1.1.1.2, h.1.1.1.1.1.1.1.1.2,
    h.1.1.1.1.1.1.1.2, h.1.1.1.1.1.1.2, h.1.1.1.1.1.2, h.1.1.1.1.2,
    h.1.1.1.2, h.1.1.2⟩

/-- A text headed by a `badStart` character never scans as a JSON value. -/
theorem jvP_bad (fuel : Nat) (c : Char) (cs : List Char) (h : badStart c = true) :
    jvP fuel (c :: cs) = none := by
  obtain ⟨hws, h1, h2, h3, h4, h5, h6, h7, h8⟩ := badStart_parts c h
  cases fuel with
  | zero => rfl
  | succ f =>
      simp only [jvP]
      rw [skipJWs_cons_of _ _ hws]
      simp [h1, h2, h3, h4, h5, h6, h7, h8]

theorem pyLoads_bad (c : Char) (cs : List Char) (h : badStart c = true) :
    pyLoads (c :: cs) = none := by
  simp [pyLoads, jvP_bad _ _ _ h]

theorem loadDict_bad (c : Char) (cs : List Char) (h : badStart c = true) :
    loadDict (c :: cs) = none := by
  simp [loadDict, pyLoads_bad _ _ h, dictOfLoaded]

theorem fenceContent_none (cs : List Char) (h : hasSub fenceOpen cs = false) :
    fenceContent cs = none := by
  rw [fenceContent]
  cases hs : subSplit fenceOpen cs with
  | none => rfl
  | some pr => rw [hasSub, hs] at h; simp at h

theorem dropWhile_all (f : Char → Bool) (p rest : List Char)
    (h : ∀ c ∈ p, f c = true) :
    List.dropWhile f (p ++ rest) = List.dropWhile f rest := by
  induction p with
  | nil => rfl
  | cons c t ih =>
      rw [List.cons_append, List.dropWhile_cons]
      simp [h c (by simp), ih (fun x hx => h x (by simp [hx]))]

/-- On `p ++ toJsonText(m) ++ q` with no `{` in `p` and no `}` in `q`, the
greedy brace regex captures exactly `toJsonText(m)`. -/
theorem braceSpan_embed (m : JObj) (p q : List Char)
    (hp : '{' ∉ p) (hq : '}' ∉ q) :
    braceSpan (p ++ (serV (.obj m) ++ q)) = some (serV (.obj m)) := by
  have hobj : serV (.obj m) = '{' :: (serMems m ++ ['}']) := rfl
  have h1 : (p ++ (serV (.obj m) ++ q)).dropWhile (fun c => !(c = '{'))
      = serV (.obj m) ++ q := by
    rw [dropWhile_all _ p _ (fun c hc => by
      simp only [Bool.not_eq_true', decide_eq_false_iff_not]
      exact fun he => hp (he ▸ hc))]
    rw [hobj, List.cons_append, List.dropWhile_cons]
    simp
  have h2 : ((serV (.obj m) ++ q).reverse.dropWhile (fun c => !(c = '}'))).reverse
      = serV (.obj m) := by
    rw [List.reverse_append, hobj, List.reverse_cons, List.reverse_append]
    rw [show (['}'] : List Char).reverse = ['}'] from rfl]
    rw [dropWhile_all _ q.reverse _ (fun c hc => by
      simp only [Bool.not_eq_true', decide_eq_false_iff_not]
      exact fun he => hq (he ▸ (List.mem_reverse.mp hc)))]
    rw [show (['}'] : List Char) ++ (serMems m).reverse ++ ['{']
        = '}' :: ((serMems m).reverse ++ ['{']) from by simp]
    rw [List.dropWhile_cons]
    simp
  rw [braceSpan]
  simp only [h1]
  rw [show ((serV (.obj m) ++ q).isEmpty = false) from by
    rw [hobj]; rfl]
  simp only [Bool.false_eq_true, if_false, h2]
  rw [show (serV (.obj m)).isEmpty = false from by rw [hobj]; rfl]
  simp

/-- `str.strip()` leaves a serialized object unchanged. -/
theorem pyStrip_obj (m : JObj) : pyStrip (serV (.obj m)) = serV (.obj m) := by
  have hobj : serV (.obj m) = '{' :: (serMems m ++ ['}']) := rfl
  rw [pyStrip, hobj]
  rw [List.dropWhile_cons]
  simp only [show isPyWs '{' = false from rfl, Bool.false_eq_true, if_false]
  rw [List.reverse_cons, List.reverse_append]
  rw [show ((['}'] : List Char).reverse) = ['}'] from rfl]
  rw [show (['}'] : List Char) ++ (serMems m).reverse ++ ['{']
      = '}' :: ((serMems m).reverse ++ ['{']) from by simp]
  rw [List.dropWhile_cons]
  simp only [show isPyWs '}' = false from rfl, Bool.false_eq_true, if_false]
  simp

/-- Strategies 1 and 2 fall through and strategy 3 fires: extraction of a
mapping embedded in opaque prose recovers exactly the mapping. -/
theorem parse_embedded (m : JObj) (c : Char) (p q : List Char)
    (hm : okV (.obj m) = true) (hc : badStart c = true)
    (hp : '{' ∉ c :: p) (hq : '}' ∉ q)
    (hfence : hasSub fenceOpen (c :: (p ++ (serV (.obj m) ++ q))) = false) :
    parseJsonResult (.pyStr (String.mk (c :: (p ++ (serV (.obj m) ++ q)))))
      = .ok m := by
  have hload : loadDict (c :: (p ++ (serV (.obj m) ++ q))) = none :=
    loadDict_bad c _ hc
  have hfc : fenceContent (c :: (p ++ (serV (.obj m) ++ q))) = none :=
    fenceContent_none _ hfence
  have hbs : braceSpan ((c :: p) ++ (serV (.obj m) ++ q)) = some (serV (.obj m)) :=
    braceSpan_embed m (c :: p) q hp hq
  rw [List.cons_append] at hbs
  have hdict : loadDict (pyStrip (serV (.obj m))) = some m := by
    rw [pyStrip_obj]
    simp [loadDict, pyLoads_ser (.obj m) hm, dictOfLoaded]
  simp [parseJsonResult, hload, hfc, hbs, hdict]

/-! ## Lemmas: peeling `Except` binds -/

theorem bind_ok {ε α β : Type} (e : Except ε α) (f : α → Except ε β) (b : β)
    (h : (e >>= f) = .ok b) : ∃ x, e = .ok x ∧ f x = .ok b := by
  cases e with
  | error err => simp [Bind.bind, Except.bind] at h
  | ok x => exact ⟨x, rfl, by simpa [Bind.bind, Except.bind] using h⟩

theorem mapError_ok {ε ε' α : Type} (f : ε → ε') (e : Except ε α) (b : α)
    (h : e.mapError f = .ok b) : e = .ok b := by
  cases e with
  | error err => simp [Except.mapError] at h
  | ok x => simpa [Except.mapError] using h

theorem mkArticle_meta (t s : String) (secs : List ArticleSection)
    (meta : ArticleMetadata) (a : Article)
    (h : mkArticle t s secs meta = .ok a) : a.metadata = meta := by
  rw [mkArticle] at h
  split_ifs at h
  all_goals injection h with h2
  all_goals rw [← h2]

/-! ## The claims -/

/-- C1 (counterexample to the claim as stated): an exception raised during
the stage phase (task construction, `crew.kickoff()`, unwrapping — steps
2–6) is *not* caught: `run` re-raises it to its caller instead of
returning an Error result. -/
theorem claim1_cex :
    run ("Test") 300 none (.error ("boom")) 5 0 = .error ("boom") := rfl

/-- C1 (amended): an exception from the stage phase (steps 2–6, before
the `try` block) escapes `run` unchanged.  Inside the `try` block, an
extraction failure is caught and converted to an Error result carrying
the exception's message and the elapsed time, and so is any
non-`ValidationError` exception raised during document conversion; a
`ValidationError` instead becomes the Success fallback with the raw
mapping.  Once the stage phase completes, `run` always returns an
envelope, and both the Success and the Error envelope carry
`processing_time`. -/
theorem claim1_scope (topic : String) (minWords : Nat)
    (sectionsCount : Option Nat) (elapsed now : Int) :
    (∀ e : String, run topic minWords sectionsCount (.error e) elapsed now
        = .error e)
    ∧ (∀ (cr : CrewOutcome) (e : String),
        parseJsonResult (unwrapCrewResult cr) = .error e →
        run topic minWords sectionsCount (.ok cr) elapsed now
          = .ok (.failure e elapsed))
    ∧ (∀ (cr : CrewOutcome) (d : JObj) (e : String),
        parseJsonResult (unwrapCrewResult cr) = .ok d →
        convertToPydanticModel d now = .error (.otherError e) →
        run topic minWords sectionsCount (.ok cr) elapsed now
          = .ok (.failure e elapsed))
    ∧ (∀ (cr : CrewOutcome) (d : JObj) (e : String),
        parseJsonResult (unwrapCrewResult cr) = .ok d →
        convertToPydanticModel d now = .error (.validationError e) →
        run topic minWords sectionsCount (.ok cr) elapsed now
          = .ok (.success d elapsed))
    ∧ (∀ cr : CrewOutcome, ∃ r : RunResult,
        run topic minWords sectionsCount (.ok cr) elapsed now = .ok r
          ∧ r.ptime = elapsed) := by
  refine ⟨fun e => rfl, ?_, ?_, ?_, ?_⟩
  · intro cr e hp
    rw [run]
    simp [hp]
  · intro cr d e hp hc
    rw [run]
    simp [hp, hc]
  · intro cr d e hp hc
    rw [run]
    simp [hp, hc]
  · intro cr
    rw [run]
    cases hp : parseJsonResult (unwrapCrewResult cr) with
    | error e => exact ⟨.failure e elapsed, by simp [hp], rfl⟩
    | ok d =>
        cases hc : convertToPydanticModel d now with
        | ok a => exact ⟨.success (dumpArticle a) elapsed, by simp [hp, hc], rfl⟩
        | error ce =>
            cases ce with
            | validationError msg =>
                exact ⟨.success d elapsed, by simp [hp, hc], rfl⟩
            | otherError msg =>
                exact ⟨.failure msg elapsed, by simp [hp, hc], rfl⟩

set_option maxRecDepth 16384 in
/-- C1 witness: a `kickoff` exception escapes as raised; an unparseable
final output yields the Error envelope carrying the extraction message
and the elapsed time; a bare-string section entry yields the Error
envelope carrying the `AttributeError` message; a one-section mapping
yields the Success fallback. -/
theorem claim1_witness :
    run ("Test") 300 none (.error ("boom")) 5 0 = .error ("boom")
    ∧ run ("Test") 300 none (.ok ⟨none, none, none, ("not json at all")⟩) 5 0
        = .ok (.failure noJsonMsg 5)
    ∧ run ("Test") 300 none (.ok ⟨none, none, none, serObjStr notDictObj⟩) 5 7
        = .ok (.failure (noGetAttrMsg ("str")) 5)
    ∧ run ("Test") 300 none (.ok ⟨none, none, none, oneSectionJson⟩) 5 7
        = .ok (.success oneSectionObj 5) :=
  ⟨(claim1_scope ("Test") 300 none 5 0).1 ("boom"),
    (claim1_scope ("Test") 300 none 5 0).2.1
      ⟨none, none, none, ("not json at all")⟩ noJsonMsg rfl,
    (claim1_scope ("Test") 300 none 5 7).2.2.1
      ⟨none, none, none, serObjStr notDictObj⟩ notDictObj
      (noGetAttrMsg ("str")) rfl rfl,
    (claim1_scope ("Test") 300 none 5 7).2.2.2.1
      ⟨none, none, none, oneSectionJson⟩ oneSectionObj minSectionsMsg rfl rfl⟩

/-- C2: when extraction succeeds and `ArticleDocument` construction raises
a `ValidationError`, `run` does not fail: it returns a Success envelope
whose article payload is the raw extracted mapping, unvalidated. -/
theorem claim2_lenient_fallback (topic : String) (minWords : Nat)
    (sectionsCount : Option Nat) (cr : CrewOutcome) (elapsed now : Int)
    (d : JObj) (msg : String)
    (hparse : parseJsonResult (unwrapCrewResult cr) = .ok d)
    (hconv : convertToPydanticModel d now = .error (.validationError msg)) :
    run topic minWords sectionsCount (.ok cr) elapsed now
      = .ok (.success d elapsed) := by
  rw [run]
  simp [hparse, hconv]

set_option maxRecDepth 16384 in
/-- C2 witness: a valid-JSON final output with only one section yields
Success carrying the raw one-section mapping, not an Error. -/
theorem claim2_witness :
    parseJsonResult (unwrapCrewResult ⟨none, none, none, oneSectionJson⟩)
        = .ok oneSectionObj
    ∧ convertToPydanticModel oneSectionObj 7
        = .error (.validationError minSectionsMsg)
    ∧ run ("Test") 300 none (.ok ⟨none, none, none, oneSectionJson⟩) 5 7
        = .ok (.success oneSectionObj 5) :=
  ⟨rfl, rfl,
    claim2_lenient_fallback ("Test") 300 none ⟨none, none, none, oneSectionJson⟩
      5 7 oneSectionObj minSectionsMsg rfl rfl⟩

/-- C3 (counterexample to the claim as stated): on exhaustion the raised
`ValueError` carries a fixed notice pointing at the debug log; it does not
carry the original raw text. -/
theorem claim3_cex :
    parseJsonResult (.pyStr ("not json at all")) = .error noJsonMsg
    ∧ hasSub ("not json at all").toList noJsonMsg.toList = false := ⟨rfl, rfl⟩

/-- C3 (amended): when every strategy of the cascade fails (e.g. on
`"not json at all"`), `extract` fails with a `ValueError` whose message is
the fixed debug-log notice; the raw text itself is only printed to the
debug log, not carried in the error. -/
theorem claim3_fixed_message :
    parseJsonResult (.pyStr ("not json at all")) = .error noJsonMsg := rfl

/-- C4 (counterexample to the claim as stated): with the non-JSON prefix
`"see \x7b"` (which contains a `\x7b`), suffix `""` and the mapping `\x7b\x7d`,
extraction raises instead of recovering the mapping: the greedy span
`\x7b\x7b\x7d` fails to decode and no later strategy recovers. -/
theorem claim4_cex :
    tryLoad ("see \x7b") = none
    ∧ tryLoad ("") = none
    ∧ serObjStr [] = "\x7b\x7d"
    ∧ parseJsonResult (.pyStr ("see \x7b" ++ serObjStr [] ++ ""))
        = .error noJsonMsg := ⟨rfl, rfl, rfl, rfl⟩

/-- C4 (amended): extraction of `p ++ toJsonText(m) ++ q` recovers exactly
`m` provided `p` starts with a character that cannot begin a JSON token,
`p` contains no `\x7b`, `q` contains no `\x7d`, and the text contains no
```` ```json ```` fence marker: strategies 1–2 fall through and the greedy
brace span of strategy 3 is exactly `toJsonText(m)`. -/
theorem claim4_embedded (m : JObj) (c : Char) (p q : List Char)
    (hm : okV (.obj m) = true) (hc : badStart c = true)
    (hp : '{' ∉ c :: p) (hq : '}' ∉ q)
    (hfence : hasSub fenceOpen (c :: (p ++ (serV (.obj m) ++ q))) = false) :
    parseJsonResult (.pyStr (String.mk (c :: (p ++ (serV (.obj m) ++ q)))))
      = .ok m :=
  parse_embedded m c p q hm hc hp hq hfence

/-- C4 witness: `"Result: \x7b\"title\":\"T\"\x7d fim"` extracts to the
mapping `\x7b"title": "T"\x7d`. -/
theorem claim4_witness :
    badStart 'R' = true
    ∧ parseJsonResult (.pyStr (String.mk ('R' :: (("esult: ").toList
          ++ (serV (.obj [(kTitle, JVal.str ("T"))]) ++ (" fim").toList)))))
        = .ok [(kTitle, JVal.str ("T"))] :=
  ⟨by decide,
    claim4_embedded [(kTitle, JVal.str ("T"))] 'R' ("esult: ").toList
      (" fim").toList (by decide) (by decide) (by decide) (by decide)
      (by decide)⟩

/-- C5 (counterexample to the claim as stated): `Article` has no validator
on `title`, so construction with an empty title succeeds when the other
invariants hold — an ArticleDocument may have an empty title. -/
theorem claim5_cex :
    mkArticle ("") hundredTen [⟨"S1", sixtyA⟩, ⟨"S2", sixtyB⟩] ⟨[], [], 0⟩
      = .ok ⟨"", hundredTen, [⟨"S1", sixtyA⟩, ⟨"S2", sixtyB⟩], ⟨[], [], 0⟩⟩ := rfl

/-- C5 (amended): `title` is a required field with no non-emptiness
validation: for any title — the empty text included — construction
succeeds exactly when the summary has ≥ 100 characters and there are ≥ 2
sections. -/
theorem claim5_title_any (title summary : String) (secs : List ArticleSection)
    (meta : ArticleMetadata) (hs : 100 ≤ summary.length) (hn : 2 ≤ secs.length) :
    mkArticle title summary secs meta = .ok ⟨title, summary, secs, meta⟩ := by
  rw [mkArticle, if_neg (by omega), if_neg (by omega)]

/-- C5 witness: the amended statement at an explicitly empty title. -/
theorem claim5_witness :
    mkArticle ("") hundredTen [⟨"S1", sixtyA⟩, ⟨"S2", sixtyB⟩] ⟨[], [], 0⟩
      = .ok ⟨"", hundredTen, [⟨"S1", sixtyA⟩, ⟨"S2", sixtyB⟩], ⟨[], [], 0⟩⟩ :=
  claim5_title_any ("") hundredTen [⟨"S1", sixtyA⟩, ⟨"S2", sixtyB⟩] ⟨[], [], 0⟩
    (by decide) (by decide)

/-- C6: extraction of the exact JSON encoding of any mapping returns that
mapping — the cascade's first strategy decodes the whole text. -/
theorem claim6_roundtrip (m : JObj) (hm : okV (.obj m) = true) :
    parseJsonResult (.pyStr (serObjStr m)) = .ok m := by
  have h : pyLoads (serObjStr m).data = some (.obj m) := pyLoads_ser (.obj m) hm
  simp [parseJsonResult, loadDict, h, dictOfLoaded]

/-- C6 witness: round-trip at a concrete mapping. -/
theorem claim6_witness :
    okV (.obj [(kTitle, JVal.int 1)]) = true
    ∧ parseJsonResult (.pyStr (serObjStr [(kTitle, JVal.int 1)]))
        = .ok [(kTitle, JVal.int 1)] :=
  ⟨by decide, claim6_roundtrip [(kTitle, JVal.int 1)] (by decide)⟩

/-- C7: extraction of the double JSON encoding of any mapping recovers it:
the first decode yields a string, which is decoded exactly once more
(depth ≤ 2). -/
theorem claim7_double (m : JObj) (hm : okV (.obj m) = true) :
    parseJsonResult (.pyStr (String.mk (serV (.str (serObjStr m))))) = .ok m := by
  have hs : okStr (serObjStr m) = true := okStr_serObjStr m hm
  have h1 : pyLoads (serV (.str (serObjStr m)))
      = some (.str (serObjStr m)) :=
    pyLoads_ser (.str (serObjStr m)) (by simp [okV, hs])
  have h2 : pyLoads (serObjStr m).data = some (.obj m) := pyLoads_ser (.obj m) hm
  simp [parseJsonResult, loadDict, h1, dictOfLoaded, tryLoad, h2]

/-- C7 witness: double-encoding round-trip at a concrete mapping. -/
theorem claim7_witness :
    okV (.obj [(kTitle, JVal.str ("T"))]) = true
    ∧ parseJsonResult
        (.pyStr (String.mk (serV (.str (serObjStr [(kTitle, JVal.str ("T"))])))))
        = .ok [(kTitle, JVal.str ("T"))] :=
  ⟨by decide, claim7_double [(kTitle, JVal.str ("T"))] (by decide)⟩

/-- C8: construction with exactly one section always fails, and with
exactly two sections of ≥ 50-character content and a ≥ 100-character
summary it succeeds. -/
theorem claim8_section_bounds :
    (∀ (t s : String) (sec : ArticleSection) (meta : ArticleMetadata),
      ∃ e, mkArticle t s [sec] meta = .error e)
    ∧ (∀ (t s st1 c1 st2 c2 : String) (meta : ArticleMetadata),
      100 ≤ s.length → 50 ≤ c1.length → 50 ≤ c2.length →
      (do
        let s1 ← mkArticleSection st1 c1
        let s2 ← mkArticleSection st2 c2
        mkArticle t s [s1, s2] meta)
        = .ok ⟨t, s, [⟨st1, c1⟩, ⟨st2, c2⟩], meta⟩) := by
  constructor
  · intro t s sec meta
    rw [mkArticle]
    by_cases hs : s.length < 100
    · exact ⟨summaryMsg, by rw [if_pos hs]⟩
    · exact ⟨minSectionsMsg, by rw [if_neg hs, if_pos (by simp)]⟩
  · intro t s st1 c1 st2 c2 meta hs h1 h2
    rw [show mkArticleSection st1 c1 = .ok ⟨st1, c1⟩ from by
      rw [mkArticleSection, if_neg (by omega)]]
    rw [show mkArticleSection st2 c2 = .ok ⟨st2, c2⟩ from by
      rw [mkArticleSection, if_neg (by omega)]]
    show mkArticle t s [⟨st1, c1⟩, ⟨st2, c2⟩] meta = _
    rw [mkArticle, if_neg (by omega), if_neg (by simp)]

/-- C8 witness: one concrete failing one-section construction and one
concrete succeeding two-section construction. -/
theorem claim8_witness :
    (∃ e, mkArticle ("T") hundredTen [⟨"S1", sixtyA⟩] ⟨[], [], 0⟩ = .error e)
    ∧ (do
        let s1 ← mkArticleSection ("S1") sixtyA
        let s2 ← mkArticleSection ("S2") sixtyB
        mkArticle ("T") hundredTen [s1, s2] ⟨[], [], 0⟩)
        = .ok ⟨"T", hundredTen, [⟨"S1", sixtyA⟩, ⟨"S2", sixtyB⟩], ⟨[], [], 0⟩⟩ :=
  ⟨claim8_section_bounds.1 ("T") hundredTen ⟨"S1", sixtyA⟩ ⟨[], [], 0⟩,
    claim8_section_bounds.2 ("T") hundredTen ("S1") sixtyA ("S2") sixtyB
      ⟨[], [], 0⟩ (by decide) (by decide) (by decide)⟩

/-- C9: whenever conversion of an extracted mapping succeeds, the
article's `metadata.generated_at` is the `now` of the conversion step —
never a timestamp from the mapping itself. -/
theorem claim9_generated_now (d : JObj) (now : Int) (a : Article)
    (h : convertToPydanticModel d now = .ok a) :
    a.metadata.generated_at = now := by
  rw [convertToPydanticModel] at h
  obtain ⟨entries, _, h⟩ := bind_ok _ _ _ h
  obtain ⟨sections, _, h⟩ := bind_ok _ _ _ h
  obtain ⟨mdict, _, h⟩ := bind_ok _ _ _ h
  obtain ⟨keywords, _, h⟩ := bind_ok _ _ _ h
  obtain ⟨sources, _, h⟩ := bind_ok _ _ _ h
  obtain ⟨t, _, h⟩ := bind_ok _ _ _ h
  obtain ⟨s, _, h⟩ := bind_ok _ _ _ h
  have hart := mapError_ok _ _ _ h
  have := mkArticle_meta _ _ _ _ _ hart
  rw [this]

/-- C9 witness: a mapping carrying its own `generated_at` text converts to
an article whose `generated_at` is the supplied `now = 42`. -/
theorem claim9_witness :
    convertToPydanticModel dGenAt 42 = .ok aGenAt
    ∧ aGenAt.metadata.generated_at = 42 :=
  ⟨rfl, claim9_generated_now dGenAt 42 aGenAt rfl⟩

/-- C10: the lenient fallback fires only on `ValidationError`; any other
exception inside conversion (an `AttributeError` from `.get` on a
non-mapping, say) is caught by the outer handler and becomes an Error
envelope, not a raw-mapping Success. -/
theorem claim10_other_exception (topic : String) (minWords : Nat)
    (sectionsCount : Option Nat) (cr : CrewOutcome) (elapsed now : Int)
    (d : JObj) (msg : String)
    (hparse : parseJsonResult (unwrapCrewResult cr) = .ok d)
    (hconv : convertToPydanticModel d now = .error (.otherError msg)) :
    run topic minWords sectionsCount (.ok cr) elapsed now
      = .ok (.failure msg elapsed) := by
  rw [run]
  simp [hparse, hconv]

/-- C10 witness: a `sections` entry that is a bare string makes conversion
raise `AttributeError` (`\x27str\x27 object has no attribute \x27get\x27`)
and `run` returns the Error envelope. -/
theorem claim10_witness :
    parseJsonResult (unwrapCrewResult ⟨none, none, none, serObjStr notDictObj⟩)
        = .ok notDictObj
    ∧ convertToPydanticModel notDictObj 7
        = .error (.otherError (noGetAttrMsg ("str")))
    ∧ run ("Test") 300 none (.ok ⟨none, none, none, serObjStr notDictObj⟩) 5 7
        = .ok (.failure (noGetAttrMsg ("str")) 5) :=
  ⟨rfl, rfl,
    claim10_other_exception ("Test") 300 none
      ⟨none, none, none, serObjStr notDictObj⟩ 5 7 notDictObj
      (noGetAttrMsg ("str")) rfl rfl⟩

end ArticlePipeline
